import Mathlib

/- Verification of the pygame shape-hierarchy demo (src/main.py): scene-graph
geometry, hit testing, z-ordered two-pass rendering, and click routing.

Modelling conventions: Python floats are modelled as exact rationals and
machine integers as ℤ. Python int() applied to a float truncates toward zero
(pyint below). pygame.Rect.collidepoint follows the documented pygame
semantics: left and top edges inclusive, right and bottom edges exclusive.
Drawing and click notifications are modelled as emitted traces: per shape a
list of fill/stroke primitives, per frame a list of node-level events.
Python sorted(...) with a key is a stable ascending sort by that key; it is
modelled by insertion sort over the key relation, which is the same stable
sort extensionally. -/

/-- Python int() on a float value: truncation toward zero. -/
def pyint (q : ℚ) : ℤ := if 0 ≤ q then ⌊q⌋ else ⌈q⌉

/-- Translation of get_color: the color-name table, lowercased lookup,
defaulting to white. -/
def get_color (name : String) : ℤ × ℤ × ℤ :=
  let n := name.toLower
  if n = "gray" then (128, 128, 128)
  else if n = "lightgray" then (180, 180, 180)
  else if n = "red" then (255, 0, 0)
  else if n = "green" then (0, 255, 0)
  else if n = "blue" then (0, 0, 255)
  else if n = "white" then (255, 255, 255)
  else if n = "black" then (0, 0, 0)
  else if n = "yellow" then (255, 255, 0)
  else (255, 255, 255)

/-- The Shape entity of main.py. The parent field is an Option reference to
another Shape, as in the Python constructor; children bookkeeping is not
needed by any verified operation (rendering and hit-testing read only the
flat registry plus parent links) and is omitted. -/
inductive Shape : Type where
  | mk (shape_type : String) (color : String) (size : ℚ) (rel_pos : ℚ × ℚ)
       (parent : Option Shape) (interactable : Bool) (has_border : Bool)
       (border_thickness : ℤ) (z_order : ℤ)

def Shape.shape_type : Shape → String
  | .mk t _ _ _ _ _ _ _ _ => t

def Shape.color : Shape → String
  | .mk _ c _ _ _ _ _ _ _ => c

def Shape.size : Shape → ℚ
  | .mk _ _ s _ _ _ _ _ _ => s

def Shape.rel_pos : Shape → ℚ × ℚ
  | .mk _ _ _ r _ _ _ _ _ => r

def Shape.parent : Shape → Option Shape
  | .mk _ _ _ _ p _ _ _ _ => p

def Shape.interactable : Shape → Bool
  | .mk _ _ _ _ _ i _ _ _ => i

def Shape.has_border : Shape → Bool
  | .mk _ _ _ _ _ _ b _ _ => b

def Shape.border_thickness : Shape → ℤ
  | .mk _ _ _ _ _ _ _ bt _ => bt

def Shape.z_order : Shape → ℤ
  | .mk _ _ _ _ _ _ _ _ z => z

/-- Translation of Shape.get_pixel_size: base is the smaller viewport side,
the result is the square (int(base*size), int(base*size)). -/
def Shape.get_pixel_size (sh : Shape) (root_size : ℤ × ℤ) : ℤ × ℤ :=
  let base := min root_size.1 root_size.2
  (pyint ((base : ℚ) * sh.size), pyint ((base : ℚ) * sh.size))

/-- Translation of Shape.get_absolute_position: with a parent, the parent
absolute position plus int(parent_pixel_size * rel_pos) componentwise;
without a parent, int(root_size * rel_pos) componentwise. -/
def Shape.get_absolute_position (root_size : ℤ × ℤ) : Shape → ℤ × ℤ
  | .mk _ _ _ rp none _ _ _ _ =>
      (pyint ((root_size.1 : ℚ) * rp.1), pyint ((root_size.2 : ℚ) * rp.2))
  | .mk _ _ _ rp (some p) _ _ _ _ =>
      let parent_pos := Shape.get_absolute_position root_size p
      let parent_size := p.get_pixel_size root_size
      (parent_pos.1 + pyint ((parent_size.1 : ℚ) * rp.1),
       parent_pos.2 + pyint ((parent_size.2 : ℚ) * rp.2))

/-- pygame.Rect.collidepoint for a rect with the given left, top, width and
height: the left and top edges are inclusive, the right and bottom edges are
exclusive, per the documented pygame semantics. -/
def collidepoint (left top w h : ℤ) (point : ℤ × ℤ) : Bool :=
  decide (left ≤ point.1) && decide (point.1 < left + w) &&
  decide (top ≤ point.2) && decide (point.2 < top + h)

/-- Translation of Shape.check_interaction: squares use collidepoint on the
rect centered via floor-divided half sizes, circles compare the squared
distance to the squared half-width, any other shape_type yields false. -/
def Shape.check_interaction (sh : Shape) (screen_pos size mouse_pos : ℤ × ℤ) : Bool :=
  if sh.shape_type = "square" then
    collidepoint (screen_pos.1 - Int.fdiv size.1 2) (screen_pos.2 - Int.fdiv size.2 2)
      size.1 size.2 mouse_pos
  else if sh.shape_type = "circle" then
    let radius := Int.fdiv size.1 2
    let dx := mouse_pos.1 - screen_pos.1
    let dy := mouse_pos.2 - screen_pos.2
    decide (dx * dx + dy * dy ≤ radius * radius)
  else
    false

/-- The draw primitives the program emits to pygame, as listed in the spec:
filled and stroked rectangles and circles. -/
inductive Primitive : Type where
  | fillRect (left top w h : ℤ) (color : ℤ × ℤ × ℤ)
  | fillCircle (center : ℤ × ℤ) (radius : ℤ) (color : ℤ × ℤ × ℤ)
  | strokeRect (left top w h : ℤ) (color : ℤ × ℤ × ℤ) (thickness : ℤ)
  | strokeCircle (center : ℤ × ℤ) (radius : ℤ) (color : ℤ × ℤ × ℤ) (thickness : ℤ)

/-- Translation of Shape._draw_shape: one fill primitive for a square or a
circle, nothing for any other shape_type. -/
def Shape.draw_shape_prims (sh : Shape) (pos size : ℤ × ℤ) (color : ℤ × ℤ × ℤ) :
    List Primitive :=
  if sh.shape_type = "square" then
    [Primitive.fillRect (pos.1 - Int.fdiv size.1 2) (pos.2 - Int.fdiv size.2 2)
      size.1 size.2 color]
  else if sh.shape_type = "circle" then
    [Primitive.fillCircle pos (Int.fdiv size.1 2) color]
  else
    []

/-- Translation of Shape._draw_border: a black stroke primitive for a square
or a circle, nothing for any other shape_type. -/
def Shape.draw_border_prims (sh : Shape) (pos size : ℤ × ℤ) : List Primitive :=
  let border_color := get_color "black"
  if sh.shape_type = "square" then
    [Primitive.strokeRect (pos.1 - Int.fdiv size.1 2) (pos.2 - Int.fdiv size.2 2)
      size.1 size.2 border_color sh.border_thickness]
  else if sh.shape_type = "circle" then
    [Primitive.strokeCircle pos (Int.fdiv size.1 2 + Int.fdiv sh.border_thickness 2)
      border_color sh.border_thickness]
  else
    []

/-- Translation of Shape.draw: fill with the resolved base color, then the
border stroke when has_border is set. -/
def Shape.draw (sh : Shape) (root_size : ℤ × ℤ) : List Primitive :=
  let size := sh.get_pixel_size root_size
  let pos := sh.get_absolute_position root_size
  sh.draw_shape_prims pos size (get_color sh.color) ++
    (if sh.has_border then sh.draw_border_prims pos size else [])

/-- Translation of Shape.draw_highlighted: like Shape.draw but the fill color
is the base color with every channel raised by 40, clamped to 255 (the inline
tuple comprehension in the source). -/
def Shape.draw_highlighted (sh : Shape) (root_size : ℤ × ℤ) : List Primitive :=
  let size := sh.get_pixel_size root_size
  let pos := sh.get_absolute_position root_size
  let highlight_color :=
    (min ((get_color sh.color).1 + 40) 255,
     min ((get_color sh.color).2.1 + 40) 255,
     min ((get_color sh.color).2.2 + 40) 255)
  sh.draw_shape_prims pos size highlight_color ++
    (if sh.has_border then sh.draw_border_prims pos size else [])

/-- The scene registry of main.py: the roots and the flat list of all
registered shapes, in registration order. -/
structure SceneManager : Type where
  root_shapes : List Shape
  all_shapes : List Shape

/-- Translation of SceneManager.add_shape: a parentless shape is also
appended to root_shapes; every shape is appended to all_shapes. -/
def SceneManager.add_shape (m : SceneManager) (sh : Shape) : SceneManager :=
  { root_shapes := if sh.parent.isNone then m.root_shapes ++ [sh] else m.root_shapes
    all_shapes := m.all_shapes ++ [sh] }

/-- The key relation of sorted(all_shapes, key=lambda x: -x.z_order): stable
ascending comparison of the negated z_order, i.e. descending z_order. -/
def zdesc (a b : Shape) : Prop := -a.z_order ≤ -b.z_order

instance : DecidableRel zdesc :=
  fun a b => inferInstanceAs (Decidable (-a.z_order ≤ -b.z_order))

instance : IsTotal Shape zdesc := ⟨fun a b => le_total (-a.z_order) (-b.z_order)⟩

instance : IsTrans Shape zdesc := ⟨fun _ _ _ h h2 => le_trans h h2⟩

/-- The key relation of sorted(all_shapes, key=lambda x: x.z_order): stable
ascending comparison of z_order. -/
def zasc (a b : Shape) : Prop := a.z_order ≤ b.z_order

instance : DecidableRel zasc :=
  fun a b => inferInstanceAs (Decidable (a.z_order ≤ b.z_order))

instance : IsTotal Shape zasc := ⟨fun a b => le_total a.z_order b.z_order⟩

instance : IsTrans Shape zasc := ⟨fun _ _ _ h h2 => le_trans h h2⟩

/-- The filter of the list comprehension in SceneManager.get_shape_at: the
shape is interactable and its hit test passes at its current geometry. -/
def underMouse (mouse_pos root_size : ℤ × ℤ) (sh : Shape) : Bool :=
  sh.interactable &&
    sh.check_interaction (sh.get_absolute_position root_size)
      (sh.get_pixel_size root_size) mouse_pos

/-- Translation of SceneManager.get_shape_at: stable-sort all shapes by
descending z_order, keep the interactable ones whose hit test passes, return
the first if any. Python sorted is stable, which insertion sort realizes. -/
def SceneManager.get_shape_at (m : SceneManager) (mouse_pos root_size : ℤ × ℤ) :
    Option Shape :=
  ((m.all_shapes.insertionSort zdesc).filter (underMouse mouse_pos root_size)).head?

/-- Node-level events of one SceneManager.draw call: a normal draw of a shape
(expanding to Shape.draw), a highlighted draw (expanding to
Shape.draw_highlighted), and a click notification (Shape.handle_click). -/
inductive Event : Type where
  | drawNormal (sh : Shape)
  | drawHighlighted (sh : Shape)
  | clicked (sh : Shape)

/-- The click-handling tail of SceneManager.draw: when a click position is
supplied this frame and the hovered shape passes its hit test there, exactly
one notification for the hovered shape is emitted. -/
def clickEvents (hovered : Shape) (root_size : ℤ × ℤ) (mouse_click_pos : Option (ℤ × ℤ)) :
    List Event :=
  match mouse_click_pos with
  | none => []
  | some cp =>
      if hovered.check_interaction (hovered.get_absolute_position root_size)
          (hovered.get_pixel_size root_size) cp then
        [Event.clicked hovered]
      else
        []

/-- Translation of SceneManager.draw: base pass over all shapes stably sorted
by ascending z_order; then, when a hovered shape exists, the highlighted
redraw, the redraw of the shapes with strictly greater z_order in ascending
order, and the click handling. -/
def SceneManager.draw (m : SceneManager) (root_size mouse_pos : ℤ × ℤ)
    (mouse_click_pos : Option (ℤ × ℤ)) : List Event :=
  match m.get_shape_at mouse_pos root_size with
  | none => (m.all_shapes.insertionSort zasc).map Event.drawNormal
  | some hovered =>
      (m.all_shapes.insertionSort zasc).map Event.drawNormal ++
        Event.drawHighlighted hovered ::
          ((m.all_shapes.insertionSort zasc).filter
            (fun sh => decide (hovered.z_order < sh.z_order))).map Event.drawNormal ++
        clickEvents hovered root_size mouse_click_pos

/-- One step of the selection that the head of the descending stable sort
realizes: a shape x registered before the shapes that produced the current
best takes over exactly when its z_order is at least as large. -/
def pickStep (x : Shape) : Option Shape → Option Shape
  | none => some x
  | some b => if zdesc x b then some x else some b

/-- Selection that the head of the descending stable sort realizes, in
right-fold form: the first-registered shape among those with the greatest
z_order. -/
def pickTrue : List Shape → Option Shape
  | [] => none
  | x :: xs => pickStep x (pickTrue xs)

/-- One step of the selection that follows the words of the spec: keep the
shape seen so far with the greatest z_order, replacing it only on a strictly
greater z_order, so ties keep the earliest-registered shape. -/
def topmostStep (best : Option Shape) (y : Shape) : Option Shape :=
  match best with
  | none => some y
  | some b => if b.z_order < y.z_order then some y else some b

/-- Follows the words of the spec for topmostInteractableAt: among nodes with
interactable set whose hit test is true at the current geometry, select the
one with the greatest zOrder, ties broken by earliest registration. -/
def topmostInteractableAt_spec (shapes : List Shape) (point root_size : ℤ × ℤ) :
    Option Shape :=
  (shapes.filter (underMouse point root_size)).foldl topmostStep none

/-- Combination of a candidate seen on the left of a fold with the best of
the rest: the rest wins only with a strictly greater z_order. -/
def mergeBest (b : Shape) : Option Shape → Option Shape
  | none => some b
  | some m => if b.z_order < m.z_order then some m else some b

/-- Fixture: an interactable unit square at the viewport center with z_order
10, registered first in the two-shape scenes below. -/
def sqLow : Shape := Shape.mk "square" "white" 1 (0, 0) none true false 3 10

/-- Fixture: an interactable unit square at the viewport center with z_order
20, overlapping sqLow. -/
def sqHigh : Shape := Shape.mk "square" "white" 1 (0, 0) none true false 3 20

/-- Fixture scene: sqLow registered before sqHigh. -/
def sceneC1 : SceneManager := ⟨[sqLow, sqHigh], [sqLow, sqHigh]⟩

/-- Fixture scene: the same two shapes registered in the opposite order. -/
def sceneC1rev : SceneManager := ⟨[sqHigh, sqLow], [sqHigh, sqLow]⟩

/-- Follows the words of the claim for absolutePosition: parent position plus
the floor of parentPixelSize * relativeOffset componentwise, and the floor of
viewport * relativeOffset at a root. -/
def absolutePosition_floorSpec (root_size : ℤ × ℤ) : Shape → ℤ × ℤ
  | .mk _ _ _ rp none _ _ _ _ =>
      (⌊(root_size.1 : ℚ) * rp.1⌋, ⌊(root_size.2 : ℚ) * rp.2⌋)
  | .mk _ _ _ rp (some p) _ _ _ _ =>
      let parent_pos := absolutePosition_floorSpec root_size p
      let parent_size := p.get_pixel_size root_size
      (parent_pos.1 + ⌊(parent_size.1 : ℚ) * rp.1⌋,
       parent_pos.2 + ⌊(parent_size.2 : ℚ) * rp.2⌋)

/-- Both offset products at this node, and those of all its ancestors, are
nonnegative; on this domain truncation toward zero agrees with floor. -/
def offsetsNonneg (root_size : ℤ × ℤ) : Shape → Prop
  | .mk _ _ _ rp none _ _ _ _ =>
      0 ≤ (root_size.1 : ℚ) * rp.1 ∧ 0 ≤ (root_size.2 : ℚ) * rp.2
  | .mk _ _ _ rp (some p) _ _ _ _ =>
      0 ≤ ((p.get_pixel_size root_size).1 : ℚ) * rp.1 ∧
      0 ≤ ((p.get_pixel_size root_size).2 : ℚ) * rp.2 ∧
      offsetsNonneg root_size p

/-- Fixture: a parentless half-scale square centered in the viewport, parent
of the child below. -/
def parentC3 : Shape := Shape.mk "square" "gray" (1/2) (1/2, 1/2) none false false 3 0

/-- Fixture: a child with a negative x offset, exercising int() truncation on
a negative non-integral product at viewport (838, 1000). -/
def childC3 : Shape :=
  Shape.mk "square" "gray" (1/2) (-(1/4), 1/2) (some parentC3) true false 3 1

/-- Follows the words of the claim for the square hit test: the point lies
within the axis-aligned box of the given size centered at the center
position, inclusive of all edges. -/
def squareHitInclusive_spec (center size point : ℤ × ℤ) : Prop :=
  center.1 - size.1 / 2 ≤ point.1 ∧ point.1 ≤ center.1 + size.1 / 2 ∧
  center.2 - size.2 / 2 ≤ point.2 ∧ point.2 ≤ center.2 + size.2 / 2

/-- Fixture: an interactable square for the hit-test claims. -/
def sqC5 : Shape := Shape.mk "square" "white" 1 (0, 0) none true false 3 0

/-- Fixture: an interactable circle for the hit-test claims. -/
def circC5 : Shape := Shape.mk "circle" "white" 1 (0, 0) none true false 3 0

/-- Fixture: a node whose shape kind is neither square nor circle. -/
def triC6 : Shape := Shape.mk "triangle" "red" 1 (0, 0) none true false 3 0

/-- Reference-level node for registration claims: Python Shape objects are
heap references whose parent attribute is mutable, so a parent chain can form
a cycle; nodes live in an arena and the parent link is an arena index. -/
structure ShapeRef : Type where
  parent : Option Nat

/-- The registry at the reference level: indices of the roots and of all
registered nodes. -/
structure SceneManagerRef : Type where
  root_shapes : List Nat
  all_shapes : List Nat

/-- Translation of SceneManager.add_shape over the reference model: append
the node index to all_shapes, and to root_shapes when its parent is absent;
no failure path exists and the parent chain is never walked. -/
def add_shape_ref (arena : List ShapeRef) (m : SceneManagerRef) (i : Nat) :
    SceneManagerRef :=
  { root_shapes :=
      if ((arena.getD i ⟨none⟩).parent).isNone then m.root_shapes ++ [i]
      else m.root_shapes
    all_shapes := m.all_shapes ++ [i] }

/-- Modelled from the spec: the CyclicOwnership detector that section 7 of
the spec describes and the code does not contain, walking the parent chain
with a visited set and a bounded depth. -/
def cyclicOwnershipAux (arena : List ShapeRef) :
    Nat → List Nat → Option Nat → Bool
  | _, _, none => false
  | 0, _, some _ => true
  | fuel + 1, visited, some j =>
      if j ∈ visited then true
      else cyclicOwnershipAux arena fuel (j :: visited) (arena.getD j ⟨none⟩).parent

/-- Modelled from the spec: a node has cyclic ownership when the walk from
its parent link revisits a node within the depth bound. -/
def cyclicOwnership (arena : List ShapeRef) (i : Nat) : Bool :=
  cyclicOwnershipAux arena (arena.length + 1) [i] (arena.getD i ⟨none⟩).parent

/-- Fixture arena with a single node that is its own parent. -/
def arenaC7 : List ShapeRef := [⟨some 0⟩]

/-- Is this primitive a fill (as opposed to a stroke). -/
def primIsFill : Primitive → Bool
  | .fillRect _ _ _ _ _ => true
  | .fillCircle _ _ _ => true
  | .strokeRect _ _ _ _ _ _ => false
  | .strokeCircle _ _ _ _ => false

/-- The RGB color a primitive carries. -/
def primColor : Primitive → ℤ × ℤ × ℤ
  | .fillRect _ _ _ _ c => c
  | .fillCircle _ _ c => c
  | .strokeRect _ _ _ _ c _ => c
  | .strokeCircle _ _ c _ => c

/-- Fixture: a yellow square for the highlight witness. -/
def sqYellow : Shape := Shape.mk "square" "yellow" 1 (0, 0) none true false 3 0

/-- Is this event a click notification. -/
def isClicked : Event → Bool
  | .clicked _ => true
  | .drawNormal _ => false
  | .drawHighlighted _ => false

lemma pickStep_none (x : Shape) : pickStep x none = some x := rfl

lemma pickStep_some (x b : Shape) :
    pickStep x (some b) = if zdesc x b then some x else some b := rfl

lemma pickTrue_nil : pickTrue [] = none := rfl

lemma pickTrue_cons (x : Shape) (xs : List Shape) :
    pickTrue (x :: xs) = pickStep x (pickTrue xs) := rfl

lemma mergeBest_none (b : Shape) : mergeBest b none = some b := rfl

lemma mergeBest_some (b m : Shape) :
    mergeBest b (some m) = if b.z_order < m.z_order then some m else some b := rfl

lemma mem_of_head?_eq {α : Type} {l : List α} {a : α} (h : l.head? = some a) :
    a ∈ l := by
  cases l with
  | nil => simp at h
  | cons x xs =>
      simp only [List.head?_cons, Option.some.injEq] at h
      subst h
      exact List.mem_cons_self x xs

lemma filterHead_orderedInsert (p : Shape → Bool) (x : Shape) :
    ∀ m : List Shape, m.Sorted zdesc →
      ((List.orderedInsert zdesc x m).filter p).head? =
        (if p x then pickStep x ((m.filter p).head?) else (m.filter p).head?)
  | [], _ => by
      by_cases hpx : p x <;> simp [List.orderedInsert, hpx, pickStep]
  | y :: ys, hsort => by
      have hy : ∀ b ∈ ys, zdesc y b := (List.sorted_cons.mp hsort).1
      have hys : ys.Sorted zdesc := (List.sorted_cons.mp hsort).2
      by_cases hxy : zdesc x y
      · rw [List.orderedInsert, if_pos hxy]
        by_cases hpx : p x
        · rw [if_pos hpx]
          have hLHS : ((x :: y :: ys).filter p).head? = some x := by
            simp [List.filter_cons, hpx]
          rw [hLHS]
          cases hf : ((y :: ys).filter p).head? with
          | none => rw [pickStep_none]
          | some b =>
              have hb : b ∈ y :: ys := List.mem_of_mem_filter (mem_of_head?_eq hf)
              have hxb : zdesc x b := by
                rcases List.mem_cons.mp hb with rfl | hbys
                · exact hxy
                · exact le_trans hxy (hy b hbys)
              rw [pickStep_some, if_pos hxb]
        · rw [if_neg hpx]
          simp [List.filter_cons, hpx]
      · have hyx : zdesc y x := (@IsTotal.total Shape zdesc _ x y).resolve_left hxy
        rw [List.orderedInsert, if_neg hxy]
        by_cases hpy : p y
        · have h1 : ((y :: List.orderedInsert zdesc x ys).filter p).head? = some y := by
            simp [List.filter_cons, hpy]
          have h2 : ((y :: ys).filter p).head? = some y := by
            simp [List.filter_cons, hpy]
          rw [h1, h2]
          by_cases hpx : p x
          · rw [if_pos hpx, pickStep_some, if_neg hxy]
          · rw [if_neg hpx]
        · have h1 : ((y :: List.orderedInsert zdesc x ys).filter p).head? =
              ((List.orderedInsert zdesc x ys).filter p).head? := by
            simp [List.filter_cons, hpy]
          have h2 : ((y :: ys).filter p).head? = (ys.filter p).head? := by
            simp [List.filter_cons, hpy]
          rw [h1, h2, filterHead_orderedInsert p x ys hys]

lemma head_filter_insertionSort (p : Shape → Bool) :
    ∀ l : List Shape, ((l.insertionSort zdesc).filter p).head? = pickTrue (l.filter p)
  | [] => rfl
  | x :: xs => by
      have h := filterHead_orderedInsert p x (xs.insertionSort zdesc)
        (List.sorted_insertionSort zdesc xs)
      have hrec := head_filter_insertionSort p xs
      rw [show (x :: xs).insertionSort zdesc
            = List.orderedInsert zdesc x (xs.insertionSort zdesc) from rfl, h, hrec,
        List.filter_cons]
      by_cases hpx : p x
      · rw [if_pos hpx, if_pos hpx, pickTrue_cons]
      · rw [if_neg hpx, if_neg hpx]

lemma foldl_topmostStep_some :
    ∀ (l : List Shape) (b : Shape),
      l.foldl topmostStep (some b) = mergeBest b (pickTrue l)
  | [], b => rfl
  | x :: l, b => by
      have hstep : topmostStep (some b) x = some (if b.z_order < x.z_order then x else b) := by
        simp only [topmostStep]
        split_ifs <;> rfl
      rw [List.foldl_cons, hstep, foldl_topmostStep_some l _, pickTrue_cons]
      cases hf : pickTrue l with
      | none =>
          rw [pickStep_none, mergeBest_none, mergeBest_some]
          by_cases hbx : b.z_order < x.z_order
          · rw [if_pos hbx, if_pos hbx]
          · rw [if_neg hbx, if_neg hbx]
      | some m =>
          have hzd : zdesc x m ↔ m.z_order ≤ x.z_order := by
            unfold zdesc
            omega
          rw [pickStep_some, mergeBest_some]
          by_cases hbx : b.z_order < x.z_order
          · rw [if_pos hbx]
            by_cases hxm : zdesc x m
            · have h1 : m.z_order ≤ x.z_order := hzd.mp hxm
              have h2 : ¬ x.z_order < m.z_order := by omega
              rw [if_neg h2, if_pos hxm, mergeBest_some, if_pos hbx]
            · have h1 : x.z_order < m.z_order := by
                have h3 : ¬ m.z_order ≤ x.z_order := fun hc => hxm (hzd.mpr hc)
                omega
              have h2 : b.z_order < m.z_order := by omega
              rw [if_pos h1, if_neg hxm, mergeBest_some, if_pos h2]
          · rw [if_neg hbx]
            by_cases hxm : zdesc x m
            · have h1 : m.z_order ≤ x.z_order := hzd.mp hxm
              have h2 : ¬ b.z_order < m.z_order := by omega
              rw [if_neg h2, if_pos hxm, mergeBest_some, if_neg hbx]
            · have h1 : x.z_order < m.z_order := by
                have h3 : ¬ m.z_order ≤ x.z_order := fun hc => hxm (hzd.mpr hc)
                omega
              rw [if_neg hxm, mergeBest_some]

lemma foldl_topmostStep_none :
    ∀ l : List Shape, l.foldl topmostStep none = pickTrue l
  | [] => rfl
  | x :: l => by
      rw [List.foldl_cons, show topmostStep none x = some x from rfl,
        foldl_topmostStep_some l x, pickTrue_cons]
      cases hf : pickTrue l with
      | none => rw [pickStep_none, mergeBest_none]
      | some m =>
          have hzd : zdesc x m ↔ m.z_order ≤ x.z_order := by
            unfold zdesc
            omega
          rw [pickStep_some, mergeBest_some]
          by_cases hxm : zdesc x m
          · have h1 : m.z_order ≤ x.z_order := hzd.mp hxm
            have h2 : ¬ x.z_order < m.z_order := by omega
            rw [if_neg h2, if_pos hxm]
          · have h1 : x.z_order < m.z_order := by
              have h3 : ¬ m.z_order ≤ x.z_order := fun hc => hxm (hzd.mpr hc)
              omega
            rw [if_pos h1, if_neg hxm]

lemma pickTrue_eq_some_mem : ∀ {l : List Shape} {b : Shape}, pickTrue l = some b → b ∈ l
  | [], b => by simp [pickTrue_nil]
  | x :: xs, b => by
      rw [pickTrue_cons]
      cases hf : pickTrue xs with
      | none =>
          rw [pickStep_none]
          intro h
          have h3 : x = b := Option.some.inj h
          subst h3
          exact List.mem_cons_self x xs
      | some m =>
          rw [pickStep_some]
          by_cases hxm : zdesc x m
          · rw [if_pos hxm]
            intro h
            have h3 : x = b := Option.some.inj h
            subst h3
            exact List.mem_cons_self x xs
          · rw [if_neg hxm]
            intro h
            have h3 : m = b := Option.some.inj h
            subst h3
            exact List.mem_cons_of_mem x (pickTrue_eq_some_mem hf)

lemma pickTrue_eq_some_max :
    ∀ {l : List Shape} {b : Shape}, pickTrue l = some b →
      ∀ y ∈ l, y.z_order ≤ b.z_order
  | [], b => by simp [pickTrue_nil]
  | x :: xs, b => by
      rw [pickTrue_cons]
      cases hf : pickTrue xs with
      | none =>
          rw [pickStep_none]
          intro h y hy
          have h3 : x = b := Option.some.inj h
          subst h3
          have hxs : xs = [] := by
            cases hxs : xs with
            | nil => rfl
            | cons a t =>
                rw [hxs, pickTrue_cons] at hf
                cases hft : pickTrue t with
                | none => rw [hft, pickStep_none] at hf; cases hf
                | some c =>
                    rw [hft, pickStep_some] at hf
                    by_cases hc : zdesc a c
                    · rw [if_pos hc] at hf; cases hf
                    · rw [if_neg hc] at hf; cases hf
          subst hxs
          have hyx : y = x := by simpa using hy
          subst hyx
          exact le_refl _
      | some m =>
          have hmax : ∀ y ∈ xs, y.z_order ≤ m.z_order := fun y hy =>
            pickTrue_eq_some_max hf y hy
          have hzd : zdesc x m ↔ m.z_order ≤ x.z_order := by
            unfold zdesc
            omega
          rw [pickStep_some]
          by_cases hxm : zdesc x m
          · rw [if_pos hxm]
            intro h y hy
            have h3 : x = b := Option.some.inj h
            subst h3
            have h1 : m.z_order ≤ x.z_order := hzd.mp hxm
            rcases List.mem_cons.mp hy with rfl | hyxs
            · exact le_refl _
            · exact le_trans (hmax y hyxs) h1
          · rw [if_neg hxm]
            intro h y hy
            have h3 : m = b := Option.some.inj h
            subst h3
            have h1 : ¬ m.z_order ≤ x.z_order := fun hc => hxm (hzd.mpr hc)
            rcases List.mem_cons.mp hy with rfl | hyxs
            · omega
            · exact hmax y hyxs

lemma pickTrue_eq_none : ∀ {l : List Shape}, pickTrue l = none → l = []
  | [], _ => rfl
  | x :: xs, h => by
      rw [pickTrue_cons] at h
      cases hf : pickTrue xs with
      | none => rw [hf, pickStep_none] at h; cases h
      | some m =>
          rw [hf, pickStep_some] at h
          by_cases hxm : zdesc x m
          · rw [if_pos hxm] at h; cases h
          · rw [if_neg hxm] at h; cases h

lemma get_shape_at_eq_pickTrue (m : SceneManager) (mouse_pos root_size : ℤ × ℤ) :
    m.get_shape_at mouse_pos root_size =
      pickTrue (m.all_shapes.filter (underMouse mouse_pos root_size)) := by
  unfold SceneManager.get_shape_at
  exact head_filter_insertionSort (underMouse mouse_pos root_size) m.all_shapes

lemma topmost_spec_eq_pickTrue (shapes : List Shape) (point root_size : ℤ × ℤ) :
    topmostInteractableAt_spec shapes point root_size =
      pickTrue (shapes.filter (underMouse point root_size)) := by
  unfold topmostInteractableAt_spec
  exact foldl_topmostStep_none _

/-- C1: for every viewport and pointer position, get_shape_at returns, among
the interactable nodes whose hit test succeeds at the current geometry, the
node with the greatest z_order, ties broken by earliest registration (the
spec-side selection topmostInteractableAt_spec); any returned node is a
registered hit node whose z_order bounds every other hit node; and the result
does not depend on registration order when the z_orders of the hit nodes are
pairwise distinct. -/
theorem c1_get_shape_at_topmost (m : SceneManager) (mouse_pos root_size : ℤ × ℤ) :
    m.get_shape_at mouse_pos root_size =
      topmostInteractableAt_spec m.all_shapes mouse_pos root_size ∧
    (∀ b, m.get_shape_at mouse_pos root_size = some b →
      b ∈ m.all_shapes ∧ underMouse mouse_pos root_size b = true ∧
      ∀ y ∈ m.all_shapes, underMouse mouse_pos root_size y = true →
        y.z_order ≤ b.z_order) ∧
    (∀ m2 : SceneManager, m.all_shapes.Perm m2.all_shapes →
      (∀ a ∈ m.all_shapes, ∀ b ∈ m.all_shapes,
        underMouse mouse_pos root_size a = true →
        underMouse mouse_pos root_size b = true →
        a.z_order = b.z_order → a = b) →
      m.get_shape_at mouse_pos root_size = m2.get_shape_at mouse_pos root_size) := by
  refine ⟨?_, ?_, ?_⟩
  · rw [get_shape_at_eq_pickTrue, topmost_spec_eq_pickTrue]
  · intro b hb
    rw [get_shape_at_eq_pickTrue] at hb
    have hbm := pickTrue_eq_some_mem hb
    refine ⟨List.mem_of_mem_filter hbm, List.of_mem_filter hbm, ?_⟩
    intro y hy hyp
    exact pickTrue_eq_some_max hb y (List.mem_filter.mpr ⟨hy, hyp⟩)
  · intro m2 hperm hdist
    rw [get_shape_at_eq_pickTrue, get_shape_at_eq_pickTrue]
    have hpf : (m.all_shapes.filter (underMouse mouse_pos root_size)).Perm
        (m2.all_shapes.filter (underMouse mouse_pos root_size)) :=
      hperm.filter _
    cases h1 : pickTrue (m.all_shapes.filter (underMouse mouse_pos root_size)) with
    | none =>
        have e1 : m.all_shapes.filter (underMouse mouse_pos root_size) = [] :=
          pickTrue_eq_none h1
        have e2 : m2.all_shapes.filter (underMouse mouse_pos root_size) = [] :=
          List.Perm.eq_nil (e1 ▸ hpf).symm
        rw [e2]
        rfl
    | some b1 =>
        cases h2 : pickTrue (m2.all_shapes.filter (underMouse mouse_pos root_size)) with
        | none =>
            exfalso
            have e2 := pickTrue_eq_none h2
            have e1 : m.all_shapes.filter (underMouse mouse_pos root_size) = [] :=
              List.Perm.eq_nil (e2 ▸ hpf)
            rw [e1] at h1
            cases h1
        | some b2 =>
            have hb1mem := pickTrue_eq_some_mem h1
            have hb2mem := pickTrue_eq_some_mem h2
            have hb1mem2 : b1 ∈ m2.all_shapes.filter (underMouse mouse_pos root_size) :=
              hpf.mem_iff.mp hb1mem
            have hb2mem1 : b2 ∈ m.all_shapes.filter (underMouse mouse_pos root_size) :=
              hpf.mem_iff.mpr hb2mem
            have hz12 : b1.z_order ≤ b2.z_order := pickTrue_eq_some_max h2 b1 hb1mem2
            have hz21 : b2.z_order ≤ b1.z_order := pickTrue_eq_some_max h1 b2 hb2mem1
            have heq : b1 = b2 :=
              hdist b1 (List.mem_of_mem_filter hb1mem) b2
                (List.mem_of_mem_filter hb2mem1)
                (List.of_mem_filter hb1mem) (List.of_mem_filter hb2mem1)
                (le_antisymm hz12 hz21)
            rw [heq]

/-- Witness for C1 at a concrete scene: two overlapping interactable squares
with z_orders 10 and 20 on a (10,10) viewport, pointer at the center. -/
theorem c1_get_shape_at_topmost_witness :
    sceneC1.get_shape_at (0, 0) (10, 10) =
      topmostInteractableAt_spec sceneC1.all_shapes (0, 0) (10, 10) ∧
    sqHigh ∈ sceneC1.all_shapes ∧
    underMouse (0, 0) (10, 10) sqHigh = true ∧
    sqLow.z_order ≤ sqHigh.z_order ∧
    sceneC1.get_shape_at (0, 0) (10, 10) = sceneC1rev.get_shape_at (0, 0) (10, 10) := by
  obtain ⟨h1, h2, h3⟩ := c1_get_shape_at_topmost sceneC1 (0, 0) (10, 10)
  have hsome : sceneC1.get_shape_at (0, 0) (10, 10) = some sqHigh := by
    with_unfolding_all rfl
  obtain ⟨hmem, hum, hmax⟩ := h2 sqHigh hsome
  refine ⟨h1, hmem, hum, hmax sqLow (by simp [sceneC1]) (by with_unfolding_all rfl),
    h3 sceneC1rev ?_ ?_⟩
  · show [sqLow, sqHigh].Perm [sqHigh, sqLow]
    exact List.Perm.swap sqHigh sqLow []
  · intro a ha b hb hpa hpb hz
    have ha2 : a = sqLow ∨ a = sqHigh := by simpa [sceneC1] using ha
    have hb2 : b = sqLow ∨ b = sqHigh := by simpa [sceneC1] using hb
    rcases ha2 with rfl | rfl <;> rcases hb2 with rfl | rfl
    · rfl
    · exact absurd hz (by with_unfolding_all decide)
    · exact absurd hz (by with_unfolding_all decide)
    · rfl

/-- C2: every call to SceneManager.draw first emits a normal draw for every
registered node in non-decreasing z_order (a sorted permutation of the
registry), strictly before any hover-pass event; when a hovered node exists
the hover pass emits the highlighted redraw of the hovered node, then normal
redraws of exactly the nodes with strictly greater z_order, again in
non-decreasing z_order, followed only by click events. -/
theorem c2_draw_two_pass (m : SceneManager) (root_size mouse_pos : ℤ × ℤ)
    (mouse_click_pos : Option (ℤ × ℤ)) :
    ((m.all_shapes.insertionSort zasc).Perm m.all_shapes) ∧
    ((m.all_shapes.insertionSort zasc).Sorted zasc) ∧
    (m.get_shape_at mouse_pos root_size = none →
      m.draw root_size mouse_pos mouse_click_pos =
        (m.all_shapes.insertionSort zasc).map Event.drawNormal) ∧
    (∀ h, m.get_shape_at mouse_pos root_size = some h →
      ((m.all_shapes.insertionSort zasc).filter
          (fun sh => decide (h.z_order < sh.z_order))).Perm
        (m.all_shapes.filter (fun sh => decide (h.z_order < sh.z_order))) ∧
      ((m.all_shapes.insertionSort zasc).filter
          (fun sh => decide (h.z_order < sh.z_order))).Sorted zasc ∧
      (∀ e ∈ clickEvents h root_size mouse_click_pos, e = Event.clicked h) ∧
      m.draw root_size mouse_pos mouse_click_pos =
        (m.all_shapes.insertionSort zasc).map Event.drawNormal ++
          Event.drawHighlighted h ::
            ((m.all_shapes.insertionSort zasc).filter
              (fun sh => decide (h.z_order < sh.z_order))).map Event.drawNormal ++
          clickEvents h root_size mouse_click_pos) := by
  refine ⟨List.perm_insertionSort zasc m.all_shapes,
    List.sorted_insertionSort zasc m.all_shapes, ?_, ?_⟩
  · intro hnone
    unfold SceneManager.draw
    rw [hnone]
  · intro h hsome
    refine ⟨(List.perm_insertionSort zasc m.all_shapes).filter _,
      List.Pairwise.sublist (List.filter_sublist _)
        (List.sorted_insertionSort zasc m.all_shapes), ?_, ?_⟩
    · intro e he
      cases mouse_click_pos with
      | none => cases he
      | some cp =>
          have he2 : e ∈ (if h.check_interaction (Shape.get_absolute_position root_size h)
              (h.get_pixel_size root_size) cp = true then [Event.clicked h]
            else ([] : List Event)) := he
          by_cases hc : h.check_interaction (Shape.get_absolute_position root_size h)
              (h.get_pixel_size root_size) cp = true
          · rw [if_pos hc] at he2
            simpa using he2
          · rw [if_neg hc] at he2
            cases he2
    · unfold SceneManager.draw
      rw [hsome]

/-- Witness for C2 at the concrete two-square scene with the higher square
hovered and a click at the center. -/
theorem c2_draw_two_pass_witness :
    ((sceneC1.all_shapes.insertionSort zasc).Perm sceneC1.all_shapes) ∧
    ((sceneC1.all_shapes.insertionSort zasc).Sorted zasc) ∧
    ((sceneC1.all_shapes.insertionSort zasc).filter
        (fun sh => decide (sqHigh.z_order < sh.z_order))).Perm
      (sceneC1.all_shapes.filter (fun sh => decide (sqHigh.z_order < sh.z_order))) ∧
    sceneC1.draw (10, 10) (0, 0) (some (0, 0)) =
      (sceneC1.all_shapes.insertionSort zasc).map Event.drawNormal ++
        Event.drawHighlighted sqHigh ::
          ((sceneC1.all_shapes.insertionSort zasc).filter
            (fun sh => decide (sqHigh.z_order < sh.z_order))).map Event.drawNormal ++
        clickEvents sqHigh (10, 10) (some (0, 0)) := by
  obtain ⟨h1, h2, h3, h4⟩ := c2_draw_two_pass sceneC1 (10, 10) (0, 0) (some (0, 0))
  obtain ⟨g1, g2, g3, g4⟩ := h4 sqHigh (by with_unfolding_all rfl)
  exact ⟨h1, h2, g1, g4⟩

lemma pyint_eq_floor {q : ℚ} (h : 0 ≤ q) : pyint q = ⌊q⌋ := if_pos h

/-- Counterexample to C3: at viewport (838, 1000) the parent pixel size is
(419, 419) and the child x offset is -1/4, a product of -104.75; the claimed
floor formula gives 419 + (-105) = 314 on x while Python int() truncates
toward zero, so the code returns 419 + (-104) = 315. -/
theorem c3_absolute_position_counterexample :
    childC3.get_absolute_position (838, 1000) = (315, 709) ∧
    absolutePosition_floorSpec (838, 1000) childC3 = (314, 709) ∧
    childC3.get_absolute_position (838, 1000) ≠
      absolutePosition_floorSpec (838, 1000) childC3 := by
  refine ⟨?_, ?_, ?_⟩
  · with_unfolding_all rfl
  · with_unfolding_all rfl
  · with_unfolding_all decide

/-- C3 amended: get_absolute_position computes parentPos plus the Python
int() truncation toward zero of parentPixelSize * relativeOffset (viewport *
relativeOffset at a root); this agrees with the claimed floor formula
whenever every offset product along the ancestor chain is nonnegative, and
differs on negative non-integral products. -/
theorem c3_absolute_position_trunc :
    ∀ (sh : Shape) (root_size : ℤ × ℤ), offsetsNonneg root_size sh →
      sh.get_absolute_position root_size = absolutePosition_floorSpec root_size sh
  | .mk t c s rp none i hb bt z, rs, hnn => by
      obtain ⟨h1, h2⟩ := hnn
      show (pyint ((rs.1 : ℚ) * rp.1), pyint ((rs.2 : ℚ) * rp.2)) =
        (⌊(rs.1 : ℚ) * rp.1⌋, ⌊(rs.2 : ℚ) * rp.2⌋)
      rw [pyint_eq_floor h1, pyint_eq_floor h2]
  | .mk t c s rp (some p) i hb bt z, rs, hnn => by
      obtain ⟨h1, h2, h3⟩ := hnn
      have hp := c3_absolute_position_trunc p rs h3
      show ((Shape.get_absolute_position rs p).1 +
              pyint (((p.get_pixel_size rs).1 : ℚ) * rp.1),
            (Shape.get_absolute_position rs p).2 +
              pyint (((p.get_pixel_size rs).2 : ℚ) * rp.2)) =
        ((absolutePosition_floorSpec rs p).1 + ⌊((p.get_pixel_size rs).1 : ℚ) * rp.1⌋,
         (absolutePosition_floorSpec rs p).2 + ⌊((p.get_pixel_size rs).2 : ℚ) * rp.2⌋)
      rw [hp, pyint_eq_floor h1, pyint_eq_floor h2]

/-- Witness for the amended C3 at the preset-like root: offsets (1/2, 1/2) on
an (800, 600) viewport are nonnegative and the code equals the floor formula,
landing at the viewport center (400, 300). -/
theorem c3_absolute_position_trunc_witness :
    offsetsNonneg (800, 600) parentC3 ∧
    parentC3.get_absolute_position (800, 600) =
      absolutePosition_floorSpec (800, 600) parentC3 ∧
    parentC3.get_absolute_position (800, 600) = (400, 300) := by
  have hnn : offsetsNonneg (800, 600) parentC3 := by
    show 0 ≤ ((800 : ℤ) : ℚ) * (1/2) ∧ 0 ≤ ((600 : ℤ) : ℚ) * (1/2)
    exact ⟨by with_unfolding_all decide, by with_unfolding_all decide⟩
  exact ⟨hnn, c3_absolute_position_trunc parentC3 (800, 600) hnn,
    by with_unfolding_all rfl⟩

/-- C4: get_pixel_size is the square of side floor(min(W, H) * scale),
computed from the global viewport; it never reads the parent, so any two
nodes with equal scale get equal pixel sizes regardless of parents. -/
theorem c4_pixel_size (sh : Shape) (root_size : ℤ × ℤ)
    (hs : 0 ≤ sh.size) (hv : (0 : ℤ) ≤ min root_size.1 root_size.2) :
    sh.get_pixel_size root_size =
      (⌊((min root_size.1 root_size.2 : ℤ) : ℚ) * sh.size⌋,
       ⌊((min root_size.1 root_size.2 : ℤ) : ℚ) * sh.size⌋) ∧
    ∀ sh2 : Shape, sh2.size = sh.size →
      sh2.get_pixel_size root_size = sh.get_pixel_size root_size := by
  have hq : 0 ≤ ((min root_size.1 root_size.2 : ℤ) : ℚ) * sh.size :=
    mul_nonneg (by exact_mod_cast hv) hs
  constructor
  · show (pyint (((min root_size.1 root_size.2 : ℤ) : ℚ) * sh.size),
        pyint (((min root_size.1 root_size.2 : ℤ) : ℚ) * sh.size)) = _
    rw [pyint_eq_floor hq]
  · intro sh2 h2
    show (pyint (((min root_size.1 root_size.2 : ℤ) : ℚ) * sh2.size),
        pyint (((min root_size.1 root_size.2 : ℤ) : ℚ) * sh2.size)) =
      (pyint (((min root_size.1 root_size.2 : ℤ) : ℚ) * sh.size),
        pyint (((min root_size.1 root_size.2 : ℤ) : ℚ) * sh.size))
    rw [h2]

/-- Witness for C4 at viewport (800, 600) and scale 1/2: pixel size is
(300, 300) from the shorter side, and the parented child with the same scale
gets the same pixel size as the parentless root. -/
theorem c4_pixel_size_witness :
    (0 : ℚ) ≤ parentC3.size ∧ (0 : ℤ) ≤ min (800 : ℤ) 600 ∧
    parentC3.get_pixel_size (800, 600) =
      (⌊((min (800 : ℤ) 600 : ℤ) : ℚ) * parentC3.size⌋,
       ⌊((min (800 : ℤ) 600 : ℤ) : ℚ) * parentC3.size⌋) ∧
    childC3.get_pixel_size (800, 600) = parentC3.get_pixel_size (800, 600) ∧
    parentC3.get_pixel_size (800, 600) = (300, 300) := by
  have h := c4_pixel_size parentC3 (800, 600) (by with_unfolding_all decide)
    (by with_unfolding_all decide)
  exact ⟨by with_unfolding_all decide, by with_unfolding_all decide, h.1,
    h.2 childC3 (by with_unfolding_all rfl), by with_unfolding_all rfl⟩

/-- Counterexample to C5: the point (105, 100) lies on the right edge of the
box of size (10, 10) centered at (100, 100), inclusive per the claim, yet
check_interaction returns false because pygame collidepoint excludes the
right and bottom edges. -/
theorem c5_hit_test_counterexample :
    squareHitInclusive_spec (100, 100) (10, 10) (105, 100) ∧
    sqC5.check_interaction (100, 100) (10, 10) (105, 100) = false := by
  constructor
  · show (100 : ℤ) - 10 / 2 ≤ 105 ∧ (105 : ℤ) ≤ 100 + 10 / 2 ∧
      (100 : ℤ) - 10 / 2 ≤ 100 ∧ (100 : ℤ) ≤ 100 + 10 / 2
    refine ⟨?_, ?_, ?_, ?_⟩ <;> with_unfolding_all decide
  · with_unfolding_all rfl

/-- C5 amended: the square hit test is inclusive at the left and top edges
and exclusive at the right and bottom edges of the rect of the given size at
left/top corner center - size // 2 (pygame collidepoint semantics); the
circle hit test compares the squared distance with the square of the floored
half-width, inclusive at distance exactly that radius and false one pixel
further when the size is nonnegative. -/
theorem c5_hit_test_amended (sh : Shape) (screen_pos size mouse_pos : ℤ × ℤ) :
    (sh.shape_type = "square" →
      (sh.check_interaction screen_pos size mouse_pos = true ↔
        (screen_pos.1 - Int.fdiv size.1 2 ≤ mouse_pos.1 ∧
         mouse_pos.1 < screen_pos.1 - Int.fdiv size.1 2 + size.1 ∧
         screen_pos.2 - Int.fdiv size.2 2 ≤ mouse_pos.2 ∧
         mouse_pos.2 < screen_pos.2 - Int.fdiv size.2 2 + size.2))) ∧
    (sh.shape_type = "circle" →
      ((sh.check_interaction screen_pos size mouse_pos = true ↔
        (mouse_pos.1 - screen_pos.1) * (mouse_pos.1 - screen_pos.1) +
          (mouse_pos.2 - screen_pos.2) * (mouse_pos.2 - screen_pos.2) ≤
          Int.fdiv size.1 2 * Int.fdiv size.1 2) ∧
       (0 ≤ size.1 →
         sh.check_interaction screen_pos size
           (screen_pos.1 + Int.fdiv size.1 2, screen_pos.2) = true ∧
         sh.check_interaction screen_pos size
           (screen_pos.1 + Int.fdiv size.1 2 + 1, screen_pos.2) = false))) := by
  constructor
  · intro ht
    unfold Shape.check_interaction
    rw [if_pos ht]
    unfold collidepoint
    simp only [Bool.and_eq_true, decide_eq_true_eq]
    constructor
    · rintro ⟨⟨⟨h1, h2⟩, h3⟩, h4⟩
      exact ⟨h1, by omega, h3, by omega⟩
    · rintro ⟨h1, h2, h3, h4⟩
      exact ⟨⟨⟨h1, by omega⟩, h3⟩, by omega⟩
  · intro ht
    have hns : ¬ sh.shape_type = "square" := by
      rw [ht]
      decide
    refine ⟨?_, ?_⟩
    · unfold Shape.check_interaction
      rw [if_neg hns, if_pos ht]
      simp only [decide_eq_true_eq]
    · intro hsz
      have hr : 0 ≤ Int.fdiv size.1 2 := Int.fdiv_nonneg hsz (by omega)
      constructor
      · unfold Shape.check_interaction
        rw [if_neg hns, if_pos ht]
        simp only [decide_eq_true_eq]
        have e1 : screen_pos.1 + Int.fdiv size.1 2 - screen_pos.1 = Int.fdiv size.1 2 := by
          omega
        rw [e1]
        nlinarith [hr]
      · unfold Shape.check_interaction
        rw [if_neg hns, if_pos ht]
        simp only [decide_eq_false_iff_not, decide_eq_true_eq, not_le]
        have e1 : screen_pos.1 + Int.fdiv size.1 2 + 1 - screen_pos.1 =
            Int.fdiv size.1 2 + 1 := by omega
        rw [e1]
        nlinarith [hr]

/-- Witness for the amended C5: the concrete square box at (100, 100) of size
(10, 10) with its half-open characterization, and the concrete circle of
radius 5 hit at distance 5 and missed at distance 6. -/
theorem c5_hit_test_amended_witness :
    (sqC5.check_interaction (100, 100) (10, 10) (95, 100) = true ↔
      ((100 : ℤ) - Int.fdiv 10 2 ≤ 95 ∧ (95 : ℤ) < 100 - Int.fdiv 10 2 + 10 ∧
       (100 : ℤ) - Int.fdiv 10 2 ≤ 100 ∧ (100 : ℤ) < 100 - Int.fdiv 10 2 + 10)) ∧
    circC5.check_interaction (100, 100) (10, 10) (100 + Int.fdiv 10 2, 100) = true ∧
    circC5.check_interaction (100, 100) (10, 10) (100 + Int.fdiv 10 2 + 1, 100) = false := by
  have h1 := (c5_hit_test_amended sqC5 (100, 100) (10, 10) (95, 100)).1
    (by with_unfolding_all rfl)
  have h2 := ((c5_hit_test_amended circC5 (100, 100) (10, 10) (0, 0)).2
    (by with_unfolding_all rfl)).2 (by with_unfolding_all decide)
  exact ⟨h1, h2.1, h2.2⟩

/-- Counterexample to C6: a triangle node at geometry where a square would
hit and fill; no InvalidShapeKind condition exists anywhere in the code, the
hit test silently returns false and the draws emit no primitive. -/
theorem c6_invalid_kind_counterexample :
    triC6.check_interaction (0, 0) (10, 10) (0, 0) = false ∧
    sqC5.check_interaction (0, 0) (10, 10) (0, 0) = true ∧
    triC6.draw_shape_prims (0, 0) (10, 10) (255, 0, 0) = [] ∧
    triC6.draw (10, 10) = [] := by
  refine ⟨?_, ?_, ?_, ?_⟩ <;> with_unfolding_all rfl

/-- C6 amended: for every node whose kind is neither square nor circle, the
hit test returns false and every draw path emits no primitives; the code has
no failure condition for an unrecognized kind. -/
theorem c6_invalid_kind_amended (sh : Shape) (screen_pos size mouse_pos : ℤ × ℤ)
    (color : ℤ × ℤ × ℤ) (root_size : ℤ × ℤ)
    (h1 : ¬ sh.shape_type = "square") (h2 : ¬ sh.shape_type = "circle") :
    sh.check_interaction screen_pos size mouse_pos = false ∧
    sh.draw_shape_prims screen_pos size color = [] ∧
    sh.draw_border_prims screen_pos size = [] ∧
    sh.draw root_size = [] ∧
    sh.draw_highlighted root_size = [] := by
  have hs : sh.draw_shape_prims (Shape.get_absolute_position root_size sh)
      (sh.get_pixel_size root_size) (get_color sh.color) = [] := by
    unfold Shape.draw_shape_prims
    rw [if_neg h1, if_neg h2]
  refine ⟨?_, ?_, ?_, ?_, ?_⟩
  · unfold Shape.check_interaction
    rw [if_neg h1, if_neg h2]
  · unfold Shape.draw_shape_prims
    rw [if_neg h1, if_neg h2]
  · unfold Shape.draw_border_prims
    rw [if_neg h1, if_neg h2]
  · unfold Shape.draw
    unfold Shape.draw_shape_prims Shape.draw_border_prims
    simp only [if_neg h1, if_neg h2]
    simp
  · unfold Shape.draw_highlighted
    unfold Shape.draw_shape_prims Shape.draw_border_prims
    simp only [if_neg h1, if_neg h2]
    simp

/-- Witness for the amended C6 at the triangle fixture. -/
theorem c6_invalid_kind_amended_witness :
    triC6.check_interaction (0, 0) (10, 10) (0, 0) = false ∧
    triC6.draw_shape_prims (0, 0) (10, 10) (255, 0, 0) = [] ∧
    triC6.draw_border_prims (0, 0) (10, 10) = [] ∧
    triC6.draw (10, 10) = [] ∧
    triC6.draw_highlighted (10, 10) = [] :=
  c6_invalid_kind_amended triC6 (0, 0) (10, 10) (0, 0) (255, 0, 0) (10, 10)
    (by with_unfolding_all decide) (by with_unfolding_all decide)

/-- Counterexample to C7: node 0 of arenaC7 has a cyclic ownership chain,
yet add_shape registers it without any failure: registration succeeds and
the node lands in all_shapes. -/
theorem c7_cyclic_registration_counterexample :
    cyclicOwnership arenaC7 0 = true ∧
    add_shape_ref arenaC7 ⟨[], []⟩ 0 = ⟨[], [0]⟩ ∧
    0 ∈ (add_shape_ref arenaC7 ⟨[], []⟩ 0).all_shapes := by
  refine ⟨by with_unfolding_all rfl, by with_unfolding_all rfl, ?_⟩
  show (0 : Nat) ∈ [0]
  exact List.mem_cons_self 0 []

/-- C7 amended: add_shape performs no cycle detection and never fails: every
node is appended to all_shapes, lands in the registry, and is appended to
root_shapes exactly when its parent link is absent, even when the
spec-modelled CyclicOwnership walk flags its chain. -/
theorem c7_add_shape_total (arena : List ShapeRef) (m : SceneManagerRef) (i : Nat) :
    (add_shape_ref arena m i).all_shapes = m.all_shapes ++ [i] ∧
    i ∈ (add_shape_ref arena m i).all_shapes ∧
    (((arena.getD i ⟨none⟩).parent).isNone = true →
      (add_shape_ref arena m i).root_shapes = m.root_shapes ++ [i]) ∧
    (((arena.getD i ⟨none⟩).parent).isNone = false →
      (add_shape_ref arena m i).root_shapes = m.root_shapes) ∧
    (cyclicOwnership arena i = true → i ∈ (add_shape_ref arena m i).all_shapes) := by
  have hmem : i ∈ (add_shape_ref arena m i).all_shapes := by
    show i ∈ m.all_shapes ++ [i]
    exact List.mem_append_right _ (List.mem_cons_self i [])
  refine ⟨rfl, hmem, ?_, ?_, fun _ => hmem⟩
  · intro hp
    show (if ((arena.getD i ⟨none⟩).parent).isNone then m.root_shapes ++ [i]
        else m.root_shapes) = m.root_shapes ++ [i]
    rw [if_pos hp]
  · intro hp
    show (if ((arena.getD i ⟨none⟩).parent).isNone then m.root_shapes ++ [i]
        else m.root_shapes) = m.root_shapes
    rw [hp]
    simp

/-- Witness for the amended C7 at the cyclic fixture: the cyclic node is
still registered. -/
theorem c7_add_shape_total_witness :
    (add_shape_ref arenaC7 ⟨[], []⟩ 0).all_shapes = [] ++ [0] ∧
    0 ∈ (add_shape_ref arenaC7 ⟨[], []⟩ 0).all_shapes ∧
    (add_shape_ref arenaC7 ⟨[], []⟩ 0).root_shapes = [] := by
  obtain ⟨h1, h2, h3, h4, h5⟩ := c7_add_shape_total arenaC7 ⟨[], []⟩ 0
  exact ⟨h1, h5 (by with_unfolding_all rfl), h4 (by with_unfolding_all rfl)⟩

/-- C8: every fill primitive of a highlighted draw carries the base color
with each channel mapped to min(channel + 40, 255); in particular black maps
to (40, 40, 40) and yellow to (255, 255, 40). -/
theorem c8_highlight_color (sh : Shape) (root_size : ℤ × ℤ) :
    (∀ pr ∈ sh.draw_highlighted root_size, primIsFill pr = true →
      primColor pr =
        (min ((get_color sh.color).1 + 40) 255,
         min ((get_color sh.color).2.1 + 40) 255,
         min ((get_color sh.color).2.2 + 40) 255)) ∧
    (min ((get_color "black").1 + 40) 255,
     min ((get_color "black").2.1 + 40) 255,
     min ((get_color "black").2.2 + 40) 255) = (40, 40, 40) ∧
    (min ((get_color "yellow").1 + 40) 255,
     min ((get_color "yellow").2.1 + 40) 255,
     min ((get_color "yellow").2.2 + 40) 255) = (255, 255, 40) := by
  refine ⟨?_, by with_unfolding_all rfl, by with_unfolding_all rfl⟩
  intro pr hpr hfill
  have hpr2 : pr ∈ sh.draw_shape_prims (Shape.get_absolute_position root_size sh)
      (sh.get_pixel_size root_size)
      (min ((get_color sh.color).1 + 40) 255,
       min ((get_color sh.color).2.1 + 40) 255,
       min ((get_color sh.color).2.2 + 40) 255) ++
    (if sh.has_border then
      sh.draw_border_prims (Shape.get_absolute_position root_size sh)
        (sh.get_pixel_size root_size)
     else []) := hpr
  rcases List.mem_append.mp hpr2 with hl | hr
  · unfold Shape.draw_shape_prims at hl
    by_cases h1 : sh.shape_type = "square"
    · rw [if_pos h1] at hl
      have he : pr = Primitive.fillRect
          ((Shape.get_absolute_position root_size sh).1 -
            Int.fdiv (sh.get_pixel_size root_size).1 2)
          ((Shape.get_absolute_position root_size sh).2 -
            Int.fdiv (sh.get_pixel_size root_size).2 2)
          (sh.get_pixel_size root_size).1 (sh.get_pixel_size root_size).2
          (min ((get_color sh.color).1 + 40) 255,
           min ((get_color sh.color).2.1 + 40) 255,
           min ((get_color sh.color).2.2 + 40) 255) := by simpa using hl
      rw [he]
      rfl
    · rw [if_neg h1] at hl
      by_cases h2 : sh.shape_type = "circle"
      · rw [if_pos h2] at hl
        have he : pr = Primitive.fillCircle (Shape.get_absolute_position root_size sh)
            (Int.fdiv (sh.get_pixel_size root_size).1 2)
            (min ((get_color sh.color).1 + 40) 255,
             min ((get_color sh.color).2.1 + 40) 255,
             min ((get_color sh.color).2.2 + 40) 255) := by simpa using hl
        rw [he]
        rfl
      · rw [if_neg h2] at hl
        cases hl
  · by_cases hb : sh.has_border = true
    · rw [if_pos hb] at hr
      unfold Shape.draw_border_prims at hr
      by_cases h1 : sh.shape_type = "square"
      · rw [if_pos h1] at hr
        have he : pr = Primitive.strokeRect
            ((Shape.get_absolute_position root_size sh).1 -
              Int.fdiv (sh.get_pixel_size root_size).1 2)
            ((Shape.get_absolute_position root_size sh).2 -
              Int.fdiv (sh.get_pixel_size root_size).2 2)
            (sh.get_pixel_size root_size).1 (sh.get_pixel_size root_size).2
            (get_color "black") sh.border_thickness := by simpa using hr
        rw [he] at hfill
        simp [primIsFill] at hfill
      · rw [if_neg h1] at hr
        by_cases h2 : sh.shape_type = "circle"
        · rw [if_pos h2] at hr
          have he : pr = Primitive.strokeCircle (Shape.get_absolute_position root_size sh)
              (Int.fdiv (sh.get_pixel_size root_size).1 2 +
                Int.fdiv sh.border_thickness 2)
              (get_color "black") sh.border_thickness := by simpa using hr
          rw [he] at hfill
          simp [primIsFill] at hfill
        · rw [if_neg h2] at hr
          cases hr
    · rw [if_neg hb] at hr
      cases hr

/-- Witness for C8: the concrete highlighted fill of a yellow square carries
(255, 255, 40), and black maps to (40, 40, 40). -/
theorem c8_highlight_color_witness :
    primColor (Primitive.fillRect (-5) (-5) 10 10 (255, 255, 40)) =
      (min ((get_color sqYellow.color).1 + 40) 255,
       min ((get_color sqYellow.color).2.1 + 40) 255,
       min ((get_color sqYellow.color).2.2 + 40) 255) ∧
    (min ((get_color "black").1 + 40) 255,
     min ((get_color "black").2.1 + 40) 255,
     min ((get_color "black").2.2 + 40) 255) = (40, 40, 40) := by
  have h := c8_highlight_color sqYellow (10, 10)
  refine ⟨h.1 (Primitive.fillRect (-5) (-5) 10 10 (255, 255, 40)) ?_
    (by with_unfolding_all rfl), h.2.1⟩
  have he : sqYellow.draw_highlighted (10, 10) =
      [Primitive.fillRect (-5) (-5) 10 10 (255, 255, 40)] := by
    with_unfolding_all rfl
  rw [he]
  exact List.mem_cons_self _ _

lemma clickEvents_none (hov : Shape) (root_size : ℤ × ℤ) :
    clickEvents hov root_size none = [] := rfl

lemma clickEvents_some (hov : Shape) (root_size : ℤ × ℤ) (cp : ℤ × ℤ) :
    clickEvents hov root_size (some cp) =
      (if hov.check_interaction (Shape.get_absolute_position root_size hov)
          (hov.get_pixel_size root_size) cp = true then [Event.clicked hov]
      else []) := rfl

lemma draw_eq_of_none (m : SceneManager) (root_size mouse_pos : ℤ × ℤ)
    (mc : Option (ℤ × ℤ)) (hg : m.get_shape_at mouse_pos root_size = none) :
    m.draw root_size mouse_pos mc =
      (m.all_shapes.insertionSort zasc).map Event.drawNormal := by
  unfold SceneManager.draw
  rw [hg]

lemma draw_eq_of_some (m : SceneManager) (root_size mouse_pos : ℤ × ℤ)
    (mc : Option (ℤ × ℤ)) (hov : Shape)
    (hg : m.get_shape_at mouse_pos root_size = some hov) :
    m.draw root_size mouse_pos mc =
      (m.all_shapes.insertionSort zasc).map Event.drawNormal ++
        Event.drawHighlighted hov ::
          ((m.all_shapes.insertionSort zasc).filter
            (fun sh => decide (hov.z_order < sh.z_order))).map Event.drawNormal ++
        clickEvents hov root_size mc := by
  unfold SceneManager.draw
  rw [hg]

lemma get_shape_at_interactable (m : SceneManager) (mouse_pos root_size : ℤ × ℤ)
    {b : Shape} (h : m.get_shape_at mouse_pos root_size = some b) :
    b ∈ m.all_shapes ∧ b.interactable = true := by
  rw [get_shape_at_eq_pickTrue] at h
  have hm := pickTrue_eq_some_mem h
  have h2 : underMouse mouse_pos root_size b = true := List.of_mem_filter hm
  have h3 : (b.interactable &&
      b.check_interaction (Shape.get_absolute_position root_size b)
        (b.get_pixel_size root_size) mouse_pos) = true := h2
  refine ⟨List.mem_of_mem_filter hm, ?_⟩
  cases hbi : b.interactable
  · rw [hbi] at h3
    simp at h3
  · rfl

/-- C9: when the supplied click position lies outside the hit region of every
interactable node, one draw call emits zero click notifications. -/
theorem c9_outside_click_no_notification (m : SceneManager)
    (root_size mouse_pos cp : ℤ × ℤ)
    (h : ∀ sh ∈ m.all_shapes, sh.interactable = true →
      sh.check_interaction (Shape.get_absolute_position root_size sh)
        (sh.get_pixel_size root_size) cp = false) :
    (m.draw root_size mouse_pos (some cp)).countP isClicked = 0 := by
  rw [List.countP_eq_zero]
  cases hg : m.get_shape_at mouse_pos root_size with
  | none =>
      intro e he
      rw [draw_eq_of_none m root_size mouse_pos (some cp) hg] at he
      obtain ⟨sh, _, rfl⟩ := List.mem_map.mp he
      simp [isClicked]
  | some hov =>
      intro e he
      obtain ⟨hovmem, hovint⟩ := get_shape_at_interactable m mouse_pos root_size hg
      have hchk := h hov hovmem hovint
      have hce : clickEvents hov root_size (some cp) = [] := by
        rw [clickEvents_some]
        simp [hchk]
      rw [draw_eq_of_some m root_size mouse_pos (some cp) hov hg, hce,
        List.append_nil] at he
      rcases List.mem_append.mp he with hbase | hrest
      · obtain ⟨sh, _, rfl⟩ := List.mem_map.mp hbase
        simp [isClicked]
      · rcases List.mem_cons.mp hrest with rfl | hrest2
        · simp [isClicked]
        · obtain ⟨sh, _, rfl⟩ := List.mem_map.mp hrest2
          simp [isClicked]

/-- Witness for C9: the two-square scene with a click far outside both
squares emits no click notification. -/
theorem c9_outside_click_no_notification_witness :
    (∀ sh ∈ sceneC1.all_shapes, sh.interactable = true →
        sh.check_interaction (Shape.get_absolute_position (10, 10) sh)
          (sh.get_pixel_size (10, 10)) (50, 50) = false) ∧
    (sceneC1.draw (10, 10) (0, 0) (some (50, 50))).countP isClicked = 0 := by
  have hh : ∀ sh ∈ sceneC1.all_shapes, sh.interactable = true →
      sh.check_interaction (Shape.get_absolute_position (10, 10) sh)
        (sh.get_pixel_size (10, 10)) (50, 50) = false := by
    intro sh hsh _
    have hsh2 : sh = sqLow ∨ sh = sqHigh := by simpa [sceneC1] using hsh
    rcases hsh2 with rfl | rfl
    · with_unfolding_all rfl
    · with_unfolding_all rfl
  exact ⟨hh, c9_outside_click_no_notification sceneC1 (10, 10) (0, 0) (50, 50) hh⟩

/-- C10: one draw call emits at most one click notification, and any click
notification names exactly the node that get_shape_at returns for the pointer
position, with a supplied click position at which that node passes its hit
test. -/
theorem c10_single_topmost_notification (m : SceneManager)
    (root_size mouse_pos : ℤ × ℤ) (mc : Option (ℤ × ℤ)) :
    (m.draw root_size mouse_pos mc).countP isClicked ≤ 1 ∧
    ∀ sh, Event.clicked sh ∈ m.draw root_size mouse_pos mc →
      m.get_shape_at mouse_pos root_size = some sh ∧
      ∃ cp, mc = some cp ∧
        sh.check_interaction (Shape.get_absolute_position root_size sh)
          (sh.get_pixel_size root_size) cp = true := by
  cases hg : m.get_shape_at mouse_pos root_size with
  | none =>
      rw [draw_eq_of_none m root_size mouse_pos mc hg]
      constructor
      · have h0 : ((m.all_shapes.insertionSort zasc).map Event.drawNormal).countP
            isClicked = 0 := by
          rw [List.countP_eq_zero]
          intro e he
          obtain ⟨sh, _, rfl⟩ := List.mem_map.mp he
          simp [isClicked]
        omega
      · intro sh hmem
        exfalso
        obtain ⟨y, _, hy⟩ := List.mem_map.mp hmem
        simp at hy
  | some hov =>
      rw [draw_eq_of_some m root_size mouse_pos mc hov hg]
      have hbase0 : ((m.all_shapes.insertionSort zasc).map Event.drawNormal).countP
          isClicked = 0 := by
        rw [List.countP_eq_zero]
        intro e he
        obtain ⟨sh, _, rfl⟩ := List.mem_map.mp he
        simp [isClicked]
      have habove0 : (((m.all_shapes.insertionSort zasc).filter
          (fun sh => decide (hov.z_order < sh.z_order))).map Event.drawNormal).countP
          isClicked = 0 := by
        rw [List.countP_eq_zero]
        intro e he
        obtain ⟨sh, _, rfl⟩ := List.mem_map.mp he
        simp [isClicked]
      have hclick : (clickEvents hov root_size mc).countP isClicked ≤ 1 ∧
          ∀ e ∈ clickEvents hov root_size mc, e = Event.clicked hov := by
        cases mc with
        | none =>
            rw [clickEvents_none]
            exact ⟨by simp, by intro e he; cases he⟩
        | some cp =>
            rw [clickEvents_some]
            by_cases hc : hov.check_interaction (Shape.get_absolute_position root_size hov)
                (hov.get_pixel_size root_size) cp = true
            · rw [if_pos hc]
              refine ⟨by simp [isClicked], ?_⟩
              intro e he
              simpa using he
            · rw [if_neg hc]
              exact ⟨by simp, by intro e he; cases he⟩
      constructor
      · rw [List.countP_append, List.countP_append, hbase0, List.countP_cons, habove0]
        have h1 := hclick.1
        simp [isClicked]
        omega
      · intro sh hmem
        rcases List.mem_append.mp hmem with hab | hck
        · rcases List.mem_append.mp hab with hbase | hdh
          · obtain ⟨y, _, hy⟩ := List.mem_map.mp hbase
            simp at hy
          · rcases List.mem_cons.mp hdh with heq | habove
            · simp at heq
            · obtain ⟨y, _, hy⟩ := List.mem_map.mp habove
              simp at hy
        · have heq := hclick.2 _ hck
          have hsh : sh = hov := by injection heq
          subst hsh
          refine ⟨rfl, ?_⟩
          cases mc with
          | none => rw [clickEvents_none] at hck; cases hck
          | some cp =>
              rw [clickEvents_some] at hck
              by_cases hc : sh.check_interaction
                  (Shape.get_absolute_position root_size sh)
                  (sh.get_pixel_size root_size) cp = true
              · exact ⟨cp, rfl, hc⟩
              · rw [if_neg hc] at hck
                cases hck

/-- Witness for C10: in the two-square scene with a click at the center, the
click notification goes to the topmost square and its hit test passes at the
click position. -/
theorem c10_single_topmost_notification_witness :
    (sceneC1.draw (10, 10) (0, 0) (some (0, 0))).countP isClicked ≤ 1 ∧
    sceneC1.get_shape_at (0, 0) (10, 10) = some sqHigh ∧
    sqHigh.check_interaction (Shape.get_absolute_position (10, 10) sqHigh)
      (sqHigh.get_pixel_size (10, 10)) (0, 0) = true := by
  obtain ⟨h1, h2⟩ := c10_single_topmost_notification sceneC1 (10, 10) (0, 0) (some (0, 0))
  have hmem : Event.clicked sqHigh ∈ sceneC1.draw (10, 10) (0, 0) (some (0, 0)) := by
    have he : sceneC1.draw (10, 10) (0, 0) (some (0, 0)) =
        [Event.drawNormal sqLow, Event.drawNormal sqHigh,
         Event.drawHighlighted sqHigh, Event.clicked sqHigh] := by
      with_unfolding_all rfl
    rw [he]
    exact List.mem_cons_of_mem _ (List.mem_cons_of_mem _
      (List.mem_cons_of_mem _ (List.mem_cons_self _ _)))
  obtain ⟨g1, cp, hcp, g2⟩ := h2 sqHigh hmem
  obtain rfl : (0, 0) = cp := Option.some.inj hcp
  exact ⟨h1, g1, g2⟩
